import Mathlib

/-!
Verification of the CABB batch metadata-processing engine (src/app.py).

The definitions below are shallow embeddings of the Python source:
pure functions become Lean functions, the network is an explicit
response oracle, machine behaviour (dict insertion order, list slicing,
Python truthiness of strings) is modelled explicitly.
-/

/-- One bib object inside the JSON body of a batch response
(`data.get('bib', [])` in `fetch_bib_records_batch`). -/
structure BibEntry where
  mms_id : String
  originating_system_id : String
  title : String
  anies : List String
deriving DecidableEq, Repr

/-- The record dict built per bib by `fetch_bib_records_batch`
(src/app.py lines 414-422). -/
structure BibRecord where
  mms_id : String
  originating_system_id : String
  title : String
  originating_system : String
  anies : List String
deriving DecidableEq, Repr

/-- One HTTP response of the batch endpoint: `transportOk = false` models a
raised `requests` exception, otherwise `status` is the HTTP status code and
`bibs` the parsed body. -/
structure BatchResponse where
  transportOk : Bool
  status : Nat
  bibs : List BibEntry
deriving DecidableEq, Repr

/-- The record dict stored for one response bib (src/app.py lines 414-422):
`originating_system` is the first nine characters of
`originating_system_id`, or the constant default when that field is empty. -/
def mkBibRecord (bib : BibEntry) : BibRecord :=
  { mms_id := bib.mms_id
    originating_system_id := bib.originating_system_id
    title := bib.title
    originating_system :=
      if bib.originating_system_id ≠ "" then bib.originating_system_id.take 9
      else "01GCL_INST"
    anies := bib.anies }

/-- Python dict assignment `records[mms_id] = ...`: replace in place if the
key exists, else append (insertion order preserved). -/
def dictInsert (m : List (String × BibRecord)) (k : String) (v : BibRecord) :
    List (String × BibRecord) :=
  if m.any (fun p => p.1 == k) then
    m.map (fun p => if p.1 == k then (k, v) else p)
  else m ++ [(k, v)]

/-- The loop over `bibs` in `fetch_bib_records_batch` (src/app.py lines
403-422): every bib with a non-empty `mms_id` is stored, with no check
against the requested identifier list. -/
def buildRecords (bibs : List BibEntry) : List (String × BibRecord) :=
  bibs.foldl (fun m bib =>
    if bib.mms_id = "" then m else dictInsert m bib.mms_id (mkBibRecord bib)) []

/-- The keys of the assoc-list model of a Python dict. -/
def mapKeys (m : List (String × BibRecord)) : List String :=
  m.map Prod.fst

/-- `fetch_bib_records_batch` (src/app.py lines 351-431).
`net a req` is the response the network would give to the `a`-th request
for identifiers `req`; the code performs exactly one `requests.get`, so only
`net 0` is ever consulted.  Returns the record map together with the number
of HTTP attempts the function made.  Input lists longer than 100 are
silently truncated to the first 100 (lines 368-371); a transport error or a
non-200 status yields an empty map (lines 386-389 and the `except` arm). -/
def fetch_bib_records_batch (hasApiKey : Bool) (mms_ids : List String)
    (net : Nat → List String → BatchResponse) :
    List (String × BibRecord) × Nat :=
  if !hasApiKey then ([], 0)
  else if mms_ids.isEmpty then ([], 0)
  else
    let ids := if mms_ids.length > 100 then mms_ids.take 100 else mms_ids
    let resp := net 0 ids
    if !resp.transportOk then ([], 1)
    else if resp.status ≠ 200 then ([], 1)
    else (buildRecords resp.bibs, 1)

/-- Structural-fuel helper for `chunks100`; the fuel is always at least the
list length, so the `0, _ :: _` case is never reached on real calls. -/
def chunksAux (fuel : Nat) (l : List α) : List (List α) :=
  match fuel, l with
  | _, [] => []
  | 0, _ :: _ => []
  | f + 1, a :: t => ((a :: t).take 100) :: chunksAux f ((a :: t).drop 100)

/-- The chunking of `export_to_csv` (src/app.py lines 798-800): consecutive
slices `mms_ids[batch_start:batch_start+100]` for `batch_start` in
`range(0, total, 100)`. -/
def chunks100 (l : List α) : List (List α) :=
  chunksAux l.length l

/-- The `total_batches` computed at src/app.py line 794:
`(total + batch_size - 1) // batch_size` with `batch_size = 100`. -/
def exportApiCalls (ids : List String) : Nat :=
  (ids.length + 99) / 100

theorem chunksAux_join (fuel : Nat) (l : List α) (h : l.length ≤ fuel) :
    (chunksAux fuel l).flatten = l := by
  induction fuel generalizing l with
  | zero =>
      cases l with
      | nil => simp [chunksAux]
      | cons a t => simp at h
  | succ f ih =>
      cases l with
      | nil => simp [chunksAux]
      | cons a t =>
          simp only [chunksAux, List.flatten_cons]
          rw [ih ((a :: t).drop 100) (by simp at h ⊢; omega)]
          exact List.take_append_drop 100 (a :: t)

theorem chunks100_join (l : List α) : (chunks100 l).flatten = l :=
  chunksAux_join l.length l (Nat.le_refl _)

theorem chunksAux_length (fuel : Nat) (l : List α) (h : l.length ≤ fuel) :
    (chunksAux fuel l).length = (l.length + 99) / 100 := by
  induction fuel generalizing l with
  | zero =>
      cases l with
      | nil => simp [chunksAux]
      | cons a t => simp at h
  | succ f ih =>
      cases l with
      | nil => simp [chunksAux]
      | cons a t =>
          simp only [chunksAux, List.length_cons]
          rw [ih ((a :: t).drop 100) (by simp at h ⊢; omega)]
          simp only [List.length_drop, List.length_cons]
          omega

theorem chunks100_length (l : List α) :
    (chunks100 l).length = (l.length + 99) / 100 :=
  chunksAux_length l.length l (Nat.le_refl _)

theorem chunksAux_getD (fuel : Nat) (l : List α) (h : l.length ≤ fuel)
    (k : Nat) (hk : k < (chunksAux fuel l).length) :
    (chunksAux fuel l).getD k [] = (l.drop (k * 100)).take 100 := by
  induction fuel generalizing l k with
  | zero =>
      cases l with
      | nil => simp [chunksAux] at hk
      | cons a t => simp at h
  | succ f ih =>
      cases l with
      | nil => simp [chunksAux] at hk
      | cons a t =>
          cases k with
          | zero => simp [chunksAux]
          | succ k =>
              simp only [chunksAux, List.getD_cons_succ]
              rw [ih ((a :: t).drop 100) (by simp at h ⊢; omega) k
                    (by simpa [chunksAux] using hk)]
              rw [List.drop_drop]
              congr 2
              ring

theorem chunks100_getD (l : List α) (k : Nat) (hk : k < (chunks100 l).length) :
    (chunks100 l).getD k [] = (l.drop (k * 100)).take 100 :=
  chunksAux_getD l.length l (Nat.le_refl _) k hk

theorem chunksAux_ne_nil (fuel : Nat) (l : List α) (h : l.length ≤ fuel) :
    ∀ c ∈ chunksAux fuel l, c ≠ [] := by
  induction fuel generalizing l with
  | zero =>
      cases l with
      | nil => simp [chunksAux]
      | cons a t => simp at h
  | succ f ih =>
      cases l with
      | nil => simp [chunksAux]
      | cons a t =>
          intro c hc
          simp only [chunksAux, List.mem_cons] at hc
          rcases hc with hc | hc
          · subst hc; simp
          · exact ih ((a :: t).drop 100) (by simp at h ⊢; omega) c hc

theorem chunks100_ne_nil (l : List α) : ∀ c ∈ chunks100 l, c ≠ [] :=
  chunksAux_ne_nil l.length l (Nat.le_refl _)

/-- The two outcome counters of `export_to_csv` (src/app.py lines 788-789). -/
structure ExportCounters where
  success_count : Nat
  failed_count : Nat
deriving DecidableEq, Repr

/-- The per-item body of the `export_to_csv` inner loop (src/app.py lines
813-836): an identifier present in the batch map is mapped to a row, which
succeeds (`rowOk id = true`) or raises (`rowOk id = false`, caught and
counted failed); an identifier missing from the batch map is counted
failed. -/
def exportItemStep (recs : List (String × BibRecord)) (rowOk : String → Bool)
    (cnt : ExportCounters) (id : String) : ExportCounters :=
  if (recs.lookup id).isSome then
    if rowOk id then { cnt with success_count := cnt.success_count + 1 }
    else { cnt with failed_count := cnt.failed_count + 1 }
  else { cnt with failed_count := cnt.failed_count + 1 }

/-- The nested batch loop of `export_to_csv` (src/app.py lines 798-836):
one `fetch_bib_records_batch` call per chunk, then the per-item loop.
`net k` is the response oracle seen by the fetch for chunk `k`. -/
def exportRun (ids : List String) (net : Nat → Nat → List String → BatchResponse)
    (rowOk : String → Bool) : ExportCounters :=
  ((chunks100 ids).enum).foldl
    (fun cnt kc =>
      kc.2.foldl
        (exportItemStep (fetch_bib_records_batch true kc.2 (net kc.1)).1 rowOk)
        cnt)
    ⟨0, 0⟩

/-- The flattened item sequence of `exportRun`: each iterated identifier
paired with the batch map its chunk fetched. -/
def exportItems (ids : List String) (net : Nat → Nat → List String → BatchResponse) :
    List (String × List (String × BibRecord)) :=
  ((chunks100 ids).enum).flatMap
    (fun kc => kc.2.map
      (fun id => (id, (fetch_bib_records_batch true kc.2 (net kc.1)).1)))

/-- The counters after the first `m` item iterations of the run. -/
def exportPrefix (ids : List String) (net : Nat → Nat → List String → BatchResponse)
    (rowOk : String → Bool) (m : Nat) : ExportCounters :=
  ((exportItems ids net).take m).foldl
    (fun cnt p => exportItemStep p.2 rowOk cnt p.1) ⟨0, 0⟩

/-- The total number of HTTP attempts the run makes, summed over chunks. -/
def exportCallTotal (ids : List String)
    (net : Nat → Nat → List String → BatchResponse) : Nat :=
  ((chunks100 ids).enum).foldl
    (fun a kc => a + (fetch_bib_records_batch true kc.2 (net kc.1)).2) 0

theorem fetch_attempts_one (mms_ids : List String)
    (net : Nat → List String → BatchResponse) (h : mms_ids ≠ []) :
    (fetch_bib_records_batch true mms_ids net).2 = 1 := by
  unfold fetch_bib_records_batch
  simp only [Bool.not_true, Bool.false_eq_true, if_false]
  rw [if_neg (by simpa [List.isEmpty_iff] using h)]
  split <;> split <;> first | rfl | (split <;> rfl)

theorem exportItemStep_total (recs : List (String × BibRecord))
    (rowOk : String → Bool) (cnt : ExportCounters) (id : String) :
    (exportItemStep recs rowOk cnt id).success_count
      + (exportItemStep recs rowOk cnt id).failed_count
      = cnt.success_count + cnt.failed_count + 1 := by
  unfold exportItemStep
  split
  · split
    · simp
      omega
    · simp
      omega
  · simp
    omega

theorem exportItemStep_le (recs : List (String × BibRecord))
    (rowOk : String → Bool) (cnt : ExportCounters) (id : String) :
    cnt.success_count ≤ (exportItemStep recs rowOk cnt id).success_count
      ∧ cnt.failed_count ≤ (exportItemStep recs rowOk cnt id).failed_count := by
  unfold exportItemStep
  split
  · split
    · simp
    · simp
  · simp

theorem exportFold_total (l : List (String × List (String × BibRecord)))
    (rowOk : String → Bool) (cnt : ExportCounters) :
    (l.foldl (fun c p => exportItemStep p.2 rowOk c p.1) cnt).success_count
      + (l.foldl (fun c p => exportItemStep p.2 rowOk c p.1) cnt).failed_count
      = cnt.success_count + cnt.failed_count + l.length := by
  induction l generalizing cnt with
  | nil => simp
  | cons p t ih =>
      simp only [List.foldl_cons, List.length_cons]
      rw [ih]
      rw [exportItemStep_total]
      omega

theorem exportFold_le (l : List (String × List (String × BibRecord)))
    (rowOk : String → Bool) (cnt : ExportCounters) :
    cnt.success_count
        ≤ (l.foldl (fun c p => exportItemStep p.2 rowOk c p.1) cnt).success_count
      ∧ cnt.failed_count
        ≤ (l.foldl (fun c p => exportItemStep p.2 rowOk c p.1) cnt).failed_count := by
  induction l generalizing cnt with
  | nil => simp
  | cons p t ih =>
      simp only [List.foldl_cons]
      have h1 := exportItemStep_le p.2 rowOk cnt p.1
      have h2 := ih (exportItemStep p.2 rowOk cnt p.1)
      exact ⟨Nat.le_trans h1.1 h2.1, Nat.le_trans h1.2 h2.2⟩

theorem exportRun_items_aux (L : List (Nat × List String))
    (net : Nat → Nat → List String → BatchResponse) (rowOk : String → Bool)
    (cnt : ExportCounters) :
    L.foldl
      (fun cnt kc =>
        kc.2.foldl
          (exportItemStep (fetch_bib_records_batch true kc.2 (net kc.1)).1 rowOk)
          cnt)
      cnt
    = (L.flatMap
        (fun kc => kc.2.map
          (fun id => (id, (fetch_bib_records_batch true kc.2 (net kc.1)).1)))).foldl
        (fun c p => exportItemStep p.2 rowOk c p.1) cnt := by
  induction L generalizing cnt with
  | nil => simp
  | cons kc t ih =>
      simp only [List.foldl_cons, List.flatMap_cons, List.foldl_append]
      rw [ih, List.foldl_map]

theorem exportRun_eq_items (ids : List String)
    (net : Nat → Nat → List String → BatchResponse) (rowOk : String → Bool) :
    exportRun ids net rowOk
      = (exportItems ids net).foldl (fun c p => exportItemStep p.2 rowOk c p.1) ⟨0, 0⟩ :=
  exportRun_items_aux ((chunks100 ids).enum) net rowOk ⟨0, 0⟩

theorem exportItems_length (ids : List String)
    (net : Nat → Nat → List String → BatchResponse) :
    (exportItems ids net).length = ids.length := by
  unfold exportItems
  rw [List.length_flatMap]
  have h1 : ((chunks100 ids).enum.map
        (List.length ∘ fun kc => kc.2.map (fun id =>
          (id, (fetch_bib_records_batch true kc.2 (net kc.1)).1))))
      = ((chunks100 ids).enum.map Prod.snd).map List.length := by
    rw [List.map_map]
    apply List.map_congr_left
    intro kc _
    simp
  rw [h1, List.enum_map_snd, ← List.length_flatten, chunks100_join]

theorem sum_zero_countP (ns : List Nat) (h : ns.sum = 0) :
    ns.countP (fun n => decide (0 < n)) = 0 := by
  induction ns with
  | nil => simp
  | cons n t ih =>
      simp only [List.sum_cons] at h
      simp only [List.countP_cons]
      rw [ih (by omega)]
      have hn : n = 0 := by omega
      subst hn
      simp

theorem sum_one_countP (ns : List Nat) (h : ns.sum = 1) :
    ns.countP (fun n => decide (0 < n)) = 1 := by
  induction ns with
  | nil => simp at h
  | cons n t ih =>
      simp only [List.sum_cons] at h
      simp only [List.countP_cons]
      by_cases hn : n = 0
      · subst hn
        simp only [Nat.zero_add] at h
        rw [ih h]
        simp
      · have ht : t.sum = 0 := by omega
        rw [sum_zero_countP t ht]
        have : 0 < n := by omega
        simp [this]

theorem chunks100_count_one (ids : List String) (h : ids.Nodup) (x : String)
    (hx : x ∈ ids) :
    (chunks100 ids).countP (fun c => decide (x ∈ c)) = 1 := by
  have hjoin : ((chunks100 ids).map (·.count x)).sum = 1 := by
    rw [← List.count_flatten, chunks100_join]
    exact List.count_eq_one_of_mem h hx
  have hpred : (fun c : List String => decide (x ∈ c))
      = ((fun n => decide (0 < n)) ∘ (fun c : List String => c.count x)) := by
    funext c
    simp [Function.comp, List.count_pos_iff]
  rw [hpred, ← List.countP_map]
  exact sum_one_countP _ hjoin

theorem callTotal_aux (net : Nat → Nat → List String → BatchResponse)
    (L : List (Nat × List String)) (hL : ∀ kc ∈ L, kc.2 ≠ []) (a : Nat) :
    L.foldl (fun a kc => a + (fetch_bib_records_batch true kc.2 (net kc.1)).2) a
      = a + L.length := by
  induction L generalizing a with
  | nil => simp
  | cons kc t ih =>
      simp only [List.foldl_cons, List.length_cons]
      rw [fetch_attempts_one _ _ (hL kc (by simp))]
      rw [ih (fun x hx => hL x (by simp [hx]))]
      omega

theorem exportCallTotal_eq (ids : List String)
    (net : Nat → Nat → List String → BatchResponse) :
    exportCallTotal ids net = (chunks100 ids).length := by
  unfold exportCallTotal
  rw [callTotal_aux net ((chunks100 ids).enum) ?hne 0]
  · simp [List.enum_length]
  · intro kc hkc
    apply chunks100_ne_nil ids kc.2
    have : kc.2 ∈ (chunks100 ids).enum.map Prod.snd := List.mem_map_of_mem Prod.snd hkc
    rwa [List.enum_map_snd] at this

/-- C1: in `export_to_csv` (src/app.py lines 788-841), the outcome counters
partition the iterated identifiers: the run iterates exactly the whole
identifier list (the flattened item sequence has one entry per identifier —
`export_to_csv` has no cancellation check, so no run over this function is
ever cancelled short), after `m` item iterations
`success_count + failed_count = min m |ids|` (so each iterated identifier
increments exactly one counter exactly once), both counters are monotonically
non-decreasing from each iteration to the next, and the final counters are
those after all `|ids|` iterations, so at run end
`success_count + failed_count = |ids|`. -/
theorem export_to_csv_counters (ids : List String)
    (net : Nat → Nat → List String → BatchResponse) (rowOk : String → Bool) :
    (exportItems ids net).length = ids.length
    ∧ (∀ m : Nat,
        (exportPrefix ids net rowOk m).success_count
          + (exportPrefix ids net rowOk m).failed_count = min m ids.length)
    ∧ (∀ m : Nat,
        (exportPrefix ids net rowOk m).success_count
            ≤ (exportPrefix ids net rowOk (m + 1)).success_count
        ∧ (exportPrefix ids net rowOk m).failed_count
            ≤ (exportPrefix ids net rowOk (m + 1)).failed_count)
    ∧ exportRun ids net rowOk = exportPrefix ids net rowOk ids.length
    ∧ (exportRun ids net rowOk).success_count
        + (exportRun ids net rowOk).failed_count = ids.length := by
  have hlen := exportItems_length ids net
  have htotal : ∀ m : Nat,
      (exportPrefix ids net rowOk m).success_count
        + (exportPrefix ids net rowOk m).failed_count = min m ids.length := by
    intro m
    unfold exportPrefix
    rw [exportFold_total]
    simp [List.length_take, hlen]
  have hrun : exportRun ids net rowOk = exportPrefix ids net rowOk ids.length := by
    rw [exportRun_eq_items]
    unfold exportPrefix
    rw [← hlen, List.take_length]
  refine ⟨hlen, htotal, ?_, hrun, ?_⟩
  · intro m
    unfold exportPrefix
    rw [List.take_succ, List.foldl_append]
    exact exportFold_le _ rowOk _
  · rw [hrun, htotal]
    simp

/-- C2: the chunking of `export_to_csv` (src/app.py lines 791-806) with
batch size 100: the chunks are the consecutive slices
`mms_ids[k*100 : k*100+100]`, their concatenation is the identifier list
(every position of the list lands in exactly one chunk), the number of
chunks — and therefore of batch-fetch calls actually issued, each chunk
issuing exactly one — equals the logged `total_batches`
`(total + 99) // 100 = ceil(total/100)`, and for a duplicate-free list every
identifier appears in exactly one chunk. -/
theorem export_to_csv_chunking (ids : List String)
    (net : Nat → Nat → List String → BatchResponse) :
    (chunks100 ids).flatten = ids
    ∧ (chunks100 ids).length = exportApiCalls ids
    ∧ exportApiCalls ids = (ids.length + 99) / 100
    ∧ (∀ k : Nat, k < (chunks100 ids).length →
        (chunks100 ids).getD k [] = (ids.drop (k * 100)).take 100)
    ∧ exportCallTotal ids net = exportApiCalls ids
    ∧ (ids.Nodup → ∀ x ∈ ids,
        (chunks100 ids).countP (fun c => decide (x ∈ c)) = 1) :=
  ⟨chunks100_join ids,
   chunks100_length ids,
   rfl,
   chunks100_getD ids,
   by rw [exportCallTotal_eq, chunks100_length]; rfl,
   fun h x hx => chunks100_count_one ids h x hx⟩

/-- Witness for C2 at a concrete three-identifier collection. -/
theorem export_to_csv_chunking_witness :
    (0 < (chunks100 (["a", "b", "c"] : List String)).length
      → (chunks100 (["a", "b", "c"] : List String)).getD 0 []
          = ((["a", "b", "c"] : List String).drop 0).take 100)
    ∧ (["a", "b", "c"] : List String).Nodup
    ∧ (chunks100 (["a", "b", "c"] : List String)).countP
        (fun c => decide ("b" ∈ c)) = 1 :=
  ⟨fun h => (export_to_csv_chunking ["a", "b", "c"]
      (fun _ _ _ => ⟨true, 200, []⟩)).2.2.2.1 0 h,
   by decide,
   (export_to_csv_chunking ["a", "b", "c"]
      (fun _ _ _ => ⟨true, 200, []⟩)).2.2.2.2.2 (by decide) "b" (by decide)⟩

/-- One outcome of a `requests.get` in the per-item retry loop of
`identify_single_tiff_objects` (src/app.py lines 2434-2457): a timeout, a
non-timeout transport error, or an HTTP response with its status code. -/
inductive ReqResult where
  | timeout : ReqResult
  | netError : ReqResult
  | resp : Nat → ReqResult
deriving DecidableEq, Repr

/-- The per-item retry loop of `identify_single_tiff_objects`
(src/app.py lines 2429-2457), unrolled for `max_retries = 3` and
`retry_delay = 2`: successive attempts consult `net 0`, `net 1`, `net 2`;
any HTTP response — whatever its status — ends the loop, only transport
outcomes are retried, with a 2-second sleep before each retry.  Returns
(response status if any, attempts made, total seconds slept). -/
def retryGet (net : Nat → ReqResult) : Option Nat × Nat × Nat :=
  match net 0 with
  | .resp st => (some st, 1, 0)
  | _ =>
    match net 1 with
    | .resp st => (some st, 2, 2)
    | _ =>
      match net 2 with
      | .resp st => (some st, 3, 4)
      | _ => (none, 3, 4)

/-- The counter contribution of one chunk of the `export_to_csv` run,
starting from zero counters. -/
def chunkContribution (recs : List (String × BibRecord)) (rowOk : String → Bool)
    (chunk : List String) : ExportCounters :=
  chunk.foldl (exportItemStep recs rowOk) ⟨0, 0⟩

theorem chunkContribution_empty_map (rowOk : String → Bool)
    (chunk : List String) :
    chunkContribution [] rowOk chunk = ⟨0, chunk.length⟩ := by
  unfold chunkContribution
  have : ∀ (l : List String) (c : ExportCounters),
      l.foldl (exportItemStep [] rowOk) c
        = ⟨c.success_count, c.failed_count + l.length⟩ := by
    intro l
    induction l with
    | nil => intro c; simp
    | cons x t ih =>
        intro c
        simp only [List.foldl_cons]
        rw [ih]
        simp [exportItemStep]
        omega
  rw [this]
  simp

theorem fetch_fail_empty (mms_ids : List String)
    (net : Nat → List String → BatchResponse)
    (hfail : (net 0 (if mms_ids.length > 100 then mms_ids.take 100 else mms_ids)).transportOk = false
      ∨ (net 0 (if mms_ids.length > 100 then mms_ids.take 100 else mms_ids)).status ≠ 200) :
    (fetch_bib_records_batch true mms_ids net).1 = [] := by
  unfold fetch_bib_records_batch
  simp only [Bool.not_true, Bool.false_eq_true, if_false]
  split
  · rfl
  · set ids2 := if mms_ids.length > 100 then mms_ids.take 100 else mms_ids with hids2
    rcases hfail with hfail | hfail
    · simp [hfail]
    · simp [hfail]

/-- Componentwise sum of counters. -/
def countersAdd (a b : ExportCounters) : ExportCounters :=
  ⟨a.success_count + b.success_count, a.failed_count + b.failed_count⟩

theorem exportItemStep_shift (recs : List (String × BibRecord))
    (rowOk : String → Bool) (c d : ExportCounters) (id : String) :
    exportItemStep recs rowOk (countersAdd c d) id
      = countersAdd c (exportItemStep recs rowOk d id) := by
  unfold exportItemStep countersAdd
  split
  · split <;> simp <;> omega
  · simp
    omega

theorem foldl_step_shift (recs : List (String × BibRecord))
    (rowOk : String → Bool) (l : List String) (c d : ExportCounters) :
    l.foldl (exportItemStep recs rowOk) (countersAdd c d)
      = countersAdd c (l.foldl (exportItemStep recs rowOk) d) := by
  induction l generalizing d with
  | nil => simp
  | cons x t ih =>
      simp only [List.foldl_cons]
      rw [exportItemStep_shift, ih]

theorem countersAdd_zero (c : ExportCounters) : countersAdd c ⟨0, 0⟩ = c := by
  unfold countersAdd
  simp

theorem exportRun_chunk_decomp_aux (net : Nat → Nat → List String → BatchResponse)
    (rowOk : String → Bool) (L : List (Nat × List String)) (c : ExportCounters) :
    L.foldl
      (fun cnt kc =>
        kc.2.foldl
          (exportItemStep (fetch_bib_records_batch true kc.2 (net kc.1)).1 rowOk)
          cnt)
      c
    = L.foldl
        (fun acc kc => countersAdd acc
          (chunkContribution (fetch_bib_records_batch true kc.2 (net kc.1)).1
            rowOk kc.2))
        c := by
  induction L generalizing c with
  | nil => simp
  | cons kc t ih =>
      simp only [List.foldl_cons]
      rw [← ih]
      congr 1
      rw [show c = countersAdd c ⟨0, 0⟩ from (countersAdd_zero c).symm,
        foldl_step_shift]
      rfl

theorem exportRun_chunk_decomp (ids : List String)
    (net : Nat → Nat → List String → BatchResponse) (rowOk : String → Bool) :
    exportRun ids net rowOk
      = ((chunks100 ids).enum).foldl
          (fun acc kc => countersAdd acc
            (chunkContribution (fetch_bib_records_batch true kc.2 (net kc.1)).1
              rowOk kc.2))
          ⟨0, 0⟩ :=
  exportRun_chunk_decomp_aux net rowOk ((chunks100 ids).enum) ⟨0, 0⟩

/-- The failing-then-succeeding response oracle used to refute the claimed
retry of the chunk batch fetch: the first attempt gets HTTP 500, any further
attempt would get HTTP 200 with the requested record. -/
def netRetryProbe : Nat → List String → BatchResponse :=
  fun a _ =>
    if a = 0 then ⟨true, 500, []⟩
    else ⟨true, 200, [⟨"991", "", "", ["<record/>"]⟩]⟩

/-- C3 counterexample: the chunk batch fetch is NOT retried.  With an oracle
whose first response is HTTP 500 but whose second response would be HTTP 200
carrying the requested record, `fetch_bib_records_batch` makes exactly one
attempt, returns the empty map, and the export run counts the chunk's only
identifier as failed — contradicting the claim that the fetch is retried up
to 3 attempts and that identifiers are failed only if all attempts fail. -/
theorem batch_fetch_retry_counterexample :
    (fetch_bib_records_batch true ["991"] netRetryProbe).2 = 1
    ∧ (fetch_bib_records_batch true ["991"] netRetryProbe).1 = []
    ∧ (netRetryProbe 1 ["991"]).status = 200
    ∧ exportRun ["991"] (fun _ => netRetryProbe) (fun _ => true) = ⟨0, 1⟩ := by
  decide

/-- C3 amended: a chunk's batch-fetch call is attempted exactly once — on a
transport error or non-2xx status it is not retried, the chunk's whole
identifier slice is counted as failed (its counter contribution is
`⟨0, |chunk|⟩`), and the run still iterates every identifier of every chunk
(`succeeded + failed = |collection|`, so one bad chunk never aborts the
run).  The 3-attempt, 2-seconds-between-attempts retry of the spec belongs
to the per-item representation fetch of `identify_single_tiff_objects`
(`retryGet`), and it retries only transport outcomes: any HTTP response,
whatever its status, ends that loop on the attempt that received it; a
`none` result occurs exactly when all three attempts were transport
failures, with 2 seconds slept before each retry. -/
theorem batch_fetch_no_retry_isolation :
    (∀ (mms_ids : List String) (net : Nat → List String → BatchResponse),
        mms_ids ≠ [] → (fetch_bib_records_batch true mms_ids net).2 = 1)
    ∧ (∀ (ids : List String) (net : Nat → Nat → List String → BatchResponse)
        (rowOk : String → Bool) (k : Nat) (hk : k < (chunks100 ids).length),
        ((net k 0 ((chunks100 ids).getD k [])).transportOk = false
          ∨ (net k 0 ((chunks100 ids).getD k [])).status ≠ 200) →
        chunkContribution
            (fetch_bib_records_batch true ((chunks100 ids).getD k []) (net k)).1
            rowOk ((chunks100 ids).getD k [])
          = ⟨0, ((chunks100 ids).getD k []).length⟩)
    ∧ (∀ (ids : List String) (net : Nat → Nat → List String → BatchResponse)
        (rowOk : String → Bool),
        (exportRun ids net rowOk).success_count
          + (exportRun ids net rowOk).failed_count = ids.length)
    ∧ (∀ (net : Nat → ReqResult) (st : Nat),
        net 0 = .resp st → retryGet net = (some st, 1, 0))
    ∧ (∀ net : Nat → ReqResult, (retryGet net).2.1 ≤ 3)
    ∧ (∀ net : Nat → ReqResult,
        (retryGet net).2.2 = 2 * ((retryGet net).2.1 - 1))
    ∧ (∀ net : Nat → ReqResult,
        (retryGet net).1 = none ↔ ∀ a < 3, ∀ st : Nat, net a ≠ .resp st) := by
  refine ⟨fetch_attempts_one, ?_, ?_, ?_, ?_, ?_, ?_⟩
  · intro ids net rowOk k hk hfail
    have hlen : ((chunks100 ids).getD k []).length ≤ 100 := by
      rw [chunks100_getD ids k hk]
      exact List.length_take_le 100 _
    have hids2 : (if ((chunks100 ids).getD k []).length > 100
        then ((chunks100 ids).getD k []).take 100
        else (chunks100 ids).getD k []) = (chunks100 ids).getD k [] := by
      rw [if_neg]
      omega
    rw [fetch_fail_empty _ _ (by rw [hids2]; exact hfail)]
    exact chunkContribution_empty_map rowOk _
  · intro ids net rowOk
    have h1 := exportRun_eq_items ids net rowOk
    have h2 : exportRun ids net rowOk
        = ((exportItems ids net).take (exportItems ids net).length).foldl
            (fun c p => exportItemStep p.2 rowOk c p.1) ⟨0, 0⟩ := by
      rw [List.take_length]
      exact h1
    rw [h2, exportFold_total]
    simp [exportItems_length]
  · intro net st h0
    simp [retryGet, h0]
  · intro net
    cases h0 : net 0 <;> cases h1 : net 1 <;> cases h2 : net 2 <;>
      simp [retryGet, h0, h1, h2]
  · intro net
    cases h0 : net 0 <;> cases h1 : net 1 <;> cases h2 : net 2 <;>
      simp [retryGet, h0, h1, h2]
  · intro net
    constructor
    · intro hn a ha st hresp
      interval_cases a
      · simp [retryGet, hresp] at hn
      · cases h0 : net 0 with
        | resp st0 => simp [retryGet, h0] at hn
        | timeout => simp [retryGet, h0, hresp] at hn
        | netError => simp [retryGet, h0, hresp] at hn
      · cases h0 : net 0 with
        | resp st0 => simp [retryGet, h0] at hn
        | timeout =>
            cases h1 : net 1 with
            | resp st1 => simp [retryGet, h0, h1] at hn
            | timeout => simp [retryGet, h0, h1, hresp] at hn
            | netError => simp [retryGet, h0, h1, hresp] at hn
        | netError =>
            cases h1 : net 1 with
            | resp st1 => simp [retryGet, h0, h1] at hn
            | timeout => simp [retryGet, h0, h1, hresp] at hn
            | netError => simp [retryGet, h0, h1, hresp] at hn
    · intro h
      cases h0 : net 0 with
      | resp st0 => exact absurd h0 (h 0 (by omega) st0)
      | timeout =>
          cases h1 : net 1 with
          | resp st1 => exact absurd h1 (h 1 (by omega) st1)
          | timeout =>
              cases h2 : net 2 with
              | resp st2 => exact absurd h2 (h 2 (by omega) st2)
              | timeout => simp [retryGet, h0, h1, h2]
              | netError => simp [retryGet, h0, h1, h2]
          | netError =>
              cases h2 : net 2 with
              | resp st2 => exact absurd h2 (h 2 (by omega) st2)
              | timeout => simp [retryGet, h0, h1, h2]
              | netError => simp [retryGet, h0, h1, h2]
      | netError =>
          cases h1 : net 1 with
          | resp st1 => exact absurd h1 (h 1 (by omega) st1)
          | timeout =>
              cases h2 : net 2 with
              | resp st2 => exact absurd h2 (h 2 (by omega) st2)
              | timeout => simp [retryGet, h0, h1, h2]
              | netError => simp [retryGet, h0, h1, h2]
          | netError =>
              cases h2 : net 2 with
              | resp st2 => exact absurd h2 (h 2 (by omega) st2)
              | timeout => simp [retryGet, h0, h1, h2]
              | netError => simp [retryGet, h0, h1, h2]

/-- Witness for the amended C3 at concrete inputs: a one-chunk run whose
only fetch response is a transport error, and a retry sequence that times
out twice then receives HTTP 503. -/
theorem batch_fetch_no_retry_isolation_witness :
    ((["991"] : List String) ≠ []
      ∧ (fetch_bib_records_batch true ["991"]
          (fun _ _ => ⟨false, 0, []⟩)).2 = 1)
    ∧ (0 < (chunks100 (["991"] : List String)).length
      ∧ ((fun (_ : Nat) (_ : Nat) (_ : List String) =>
            (⟨false, 0, []⟩ : BatchResponse)) 0 0
              ((chunks100 (["991"] : List String)).getD 0 [])).transportOk = false
      ∧ chunkContribution
          (fetch_bib_records_batch true
            ((chunks100 (["991"] : List String)).getD 0 [])
            ((fun (_ : Nat) (_ : Nat) (_ : List String) =>
              (⟨false, 0, []⟩ : BatchResponse)) 0)).1
          (fun _ => true) ((chunks100 (["991"] : List String)).getD 0 [])
        = ⟨0, ((chunks100 (["991"] : List String)).getD 0 []).length⟩)
    ∧ ((fun a => if a = 0 then ReqResult.timeout
          else if a = 1 then ReqResult.netError
          else ReqResult.resp 503) 0 = ReqResult.timeout
      ∧ retryGet (fun a => if a = 0 then ReqResult.timeout
          else if a = 1 then ReqResult.netError
          else ReqResult.resp 503) = (some 503, 3, 4)) :=
  ⟨⟨by decide,
    batch_fetch_no_retry_isolation.1 ["991"] (fun _ _ => ⟨false, 0, []⟩)
      (by decide)⟩,
   ⟨by decide, by decide,
    batch_fetch_no_retry_isolation.2.1 ["991"]
      (fun _ _ _ => ⟨false, 0, []⟩) (fun _ => true) 0 (by decide)
      (Or.inl (by decide))⟩,
   ⟨by decide, by decide⟩⟩


/-- The terminal state of one batch run of `execute_function_2`
(src/app.py lines 4796-4833): success and error counters, the skipped count
reported on a kill-switch stop (`process_count - idx + 1`, or 0 on normal
completion), the identifiers on which the per-item operation was actually
invoked (in order), and whether the run was stopped by the kill switch. -/
structure BatchRunResult where
  success_count : Nat
  error_count : Nat
  skipped : Nat
  started : List String
  stopped : Bool
deriving DecidableEq, Repr

/-- The `for idx, mms_id in enumerate(members_to_process, 1)` loop of
`execute_function_2` (src/app.py lines 4802-4824): at the top of each
iteration the kill switch is read (`killSeq idx` is its value at the check
before item `idx`); if set, the loop returns immediately reporting
`n - idx + 1` skipped items and leaves the work already done in place;
otherwise `clear_dc_relation_collections` runs on the item (`op`, `true` for
success) and exactly one of the two counters is incremented. -/
def runClearBatchAux (op : String → Bool) (killSeq : Nat → Bool) (n : Nat) :
    Nat → List String → Nat → Nat → List String → BatchRunResult
  | _, [], s, e, st => ⟨s, e, 0, st.reverse, false⟩
  | idx, m :: rest, s, e, st =>
    if killSeq idx then ⟨s, e, n - idx + 1, st.reverse, true⟩
    else if op m then runClearBatchAux op killSeq n (idx + 1) rest (s + 1) e (m :: st)
    else runClearBatchAux op killSeq n (idx + 1) rest s (e + 1) (m :: st)

/-- The batch path of `execute_function_2`: counters start at zero, `idx`
starts at 1, `n = len(members_to_process)`. -/
def runClearBatch (members : List String) (op : String → Bool)
    (killSeq : Nat → Bool) : BatchRunResult :=
  runClearBatchAux op killSeq members.length 1 members 0 0 []

theorem countP_not_add (p : α → Bool) (l : List α) :
    l.countP p + l.countP (fun a => !p a) = l.length := by
  induction l with
  | nil => simp
  | cons x t ih =>
      simp only [List.countP_cons, List.length_cons]
      cases hp : p x <;> simp [hp] <;> omega

theorem runClearBatchAux_killAfter (op : String → Bool) (k n : Nat)
    (hkn : k < n) (rest : List String) (idx s e : Nat) (st : List String) :
    idx + rest.length = n + 1 → idx ≤ k →
    runClearBatchAux op (fun i => decide (k < i)) n idx rest s e st
      = ⟨s + (rest.take (k + 1 - idx)).countP op,
         e + (rest.take (k + 1 - idx)).countP (fun m => !op m),
         n - k,
         st.reverse ++ rest.take (k + 1 - idx),
         true⟩ := by
  induction rest generalizing idx s e st with
  | nil =>
      intro hlen hik
      exfalso
      simp at hlen
      omega
  | cons m rest ih =>
      intro hlen hik
      have hnotkill : ¬ ((decide (k < idx)) = true) := by
        simp
        omega
      have htake : (m :: rest).take (k + 1 - idx)
          = m :: rest.take (k + 1 - (idx + 1)) := by
        have harith : k + 1 - idx = (k + 1 - (idx + 1)) + 1 := by omega
        rw [harith]
        rfl
      simp only [runClearBatchAux]
      rw [if_neg hnotkill, htake]
      by_cases hend : idx = k
      · -- item k is processed; the check at idx + 1 = k + 1 observes the flag
        subst hend
        have hrest0 : idx + 1 - (idx + 1) = 0 := by omega
        have hrest : rest ≠ [] := by
          intro hr
          subst hr
          simp at hlen
          omega
        obtain ⟨m2, rest2, hr⟩ := List.exists_cons_of_ne_nil hrest
        subst hr
        have hkill2 : (decide (idx < idx + 1)) = true := by simp
        rw [hrest0]
        cases hop : op m
        · rw [if_neg (by simp [hop])]
          simp only [runClearBatchAux]
          rw [if_pos hkill2]
          simp [List.countP_cons, hop]
          omega
        · rw [if_pos rfl]
          simp only [runClearBatchAux]
          rw [if_pos hkill2]
          simp [List.countP_cons, hop]
          omega
      · have hik2 : idx + 1 ≤ k := by omega
        cases hop : op m
        · rw [if_neg (by simp [hop])]
          rw [ih (idx + 1) s (e + 1) (m :: st) (by simp at hlen ⊢; omega) hik2]
          simp [List.countP_cons, hop]
          omega
        · rw [if_pos rfl]
          rw [ih (idx + 1) (s + 1) e (m :: st) (by simp at hlen ⊢; omega) hik2]
          simp [List.countP_cons, hop]
          omega

/-- C4: in the batch loop of `execute_function_2` (src/app.py lines
4796-4824), if the kill switch becomes set after item `k` has been
processed (every check up to item `k` reads false, every later check reads
true, modelled by the flag sequence `fun i => decide (k < i)`), then the
operation is invoked on exactly the first `k` members and never on any
later one, `success_count + error_count = k` (there is no skipped-absent
outcome in this loop, each processed item lands in exactly one counter),
the reported skipped count is `|members| - k`, and the run ends in the
stopped state — with the results of the first `k` items retained in
`started` order. -/
theorem kill_switch_partition (members : List String) (op : String → Bool)
    (k : Nat) (h1 : 1 ≤ k) (h2 : k < members.length) :
    (runClearBatch members op (fun i => decide (k < i))).success_count
        + (runClearBatch members op (fun i => decide (k < i))).error_count = k
    ∧ (runClearBatch members op (fun i => decide (k < i))).skipped
        = members.length - k
    ∧ (runClearBatch members op (fun i => decide (k < i))).started
        = members.take k
    ∧ (runClearBatch members op (fun i => decide (k < i))).stopped = true := by
  unfold runClearBatch
  rw [runClearBatchAux_killAfter op k members.length h2 members 1 0 0 []
      (by omega) h1]
  have hk1 : k + 1 - 1 = k := by omega
  rw [hk1]
  refine ⟨?_, rfl, by simp, rfl⟩
  have hlen : (members.take k).length = k := by
    simp
    omega
  have := countP_not_add op (members.take k)
  simp only []
  omega

/-- Witness for C4: a three-member batch with the kill switch set after the
second item. -/
theorem kill_switch_partition_witness :
    (1 ≤ 2 ∧ 2 < (["a", "b", "c"] : List String).length)
    ∧ ((runClearBatch ["a", "b", "c"] (fun _ => true)
          (fun i => decide (2 < i))).success_count
        + (runClearBatch ["a", "b", "c"] (fun _ => true)
            (fun i => decide (2 < i))).error_count = 2
      ∧ (runClearBatch ["a", "b", "c"] (fun _ => true)
          (fun i => decide (2 < i))).skipped
          = (["a", "b", "c"] : List String).length - 2
      ∧ (runClearBatch ["a", "b", "c"] (fun _ => true)
          (fun i => decide (2 < i))).started
          = (["a", "b", "c"] : List String).take 2
      ∧ (runClearBatch ["a", "b", "c"] (fun _ => true)
          (fun i => decide (2 < i))).stopped = true) :=
  ⟨⟨by decide, by decide⟩,
   kill_switch_partition ["a", "b", "c"] (fun _ => true) 2 (by decide) (by decide)⟩

/-- Python `s.startswith(pat)` on explicit character lists (`listPrefixB pat
s` is true when `pat` is an initial segment of `s`). -/
def listPrefixB : List Char → List Char → Bool
  | [], _ => true
  | _ :: _, [] => false
  | a :: as, b :: bs => a == b && listPrefixB as bs

/-- Python `t.startswith(pat)`. -/
def strStartsWith (t pat : String) : Bool :=
  listPrefixB pat.toList t.toList

def containsSubAux (pat : List Char) : List Char → Bool
  | [] => listPrefixB pat []
  | c :: rest => listPrefixB pat (c :: rest) || containsSubAux pat rest

/-- Python `pat in t` (substring test). -/
def containsSub (t pat : String) : Bool :=
  containsSubAux pat.toList t.toList

/-- The author-copyright prefix matched at src/app.py line 1475. -/
def pattern_start : String := "Copyright to this work is held by the author(s)"

/-- The Grinnell-copyright prefix matched at src/app.py line 1476. -/
def grinnell_pattern_start : String :=
  "Grinnell College Libraries does not own the copyright in these images"

/-- The replacement rights value built at src/app.py line 1477. -/
def new_value : String :=
  "<a href=\"https://rightsstatements.org/page/NoC-US/1.0/?language=en\" target=\"_blank\">Public Domain in the United States</a>"

/-- The rights-statement URL matched at src/app.py line 1478. -/
def url_pattern : String :=
  "https://rightsstatements.org/page/NoC-US/1.0/?language=en"

/-- The attribute whose absence marks an old link (src/app.py line 1499). -/
def target_attr : String := "target=\"_blank\""

/-- How the classification pass of `replace_author_copyright_rights`
(src/app.py lines 1487-1502) buckets one `dc:rights` text: the `elif`
chain tests, in order, equality with the new value, the author-copyright
prefix, the Grinnell-copyright prefix, and old-link texts containing the
URL but not `target="_blank"`; empty texts are skipped by the truthiness
guard. -/
inductive RightsClass where
  | urlTarget : RightsClass
  | author : RightsClass
  | grinnell : RightsClass
  | oldLink : RightsClass
  | other : RightsClass
deriving DecidableEq, Repr

def classifyRights (t : String) : RightsClass :=
  if t = "" then .other
  else if t = new_value then .urlTarget
  else if strStartsWith t pattern_start then .author
  else if strStartsWith t grinnell_pattern_start then .grinnell
  else if containsSub t url_pattern && !(containsSub t target_attr) then .oldLink
  else .other

def isAuthorB (t : String) : Bool :=
  match classifyRights t with
  | .author => true
  | _ => false

def isGrinnellB (t : String) : Bool :=
  match classifyRights t with
  | .grinnell => true
  | _ => false

def isOldLinkB (t : String) : Bool :=
  match classifyRights t with
  | .oldLink => true
  | _ => false

def isLegacy (t : String) : Bool :=
  isAuthorB t || isGrinnellB t || isOldLinkB t

/-- `elements_to_replace = author_copyright_elements +
grinnell_copyright_elements + old_link_elements` (src/app.py lines 1506 and
1524), each sub-list in document order. -/
def legacyOf (rs : List String) : List String :=
  rs.filter isAuthorB ++ rs.filter isGrinnellB ++ rs.filter isOldLinkB

/-- The class of `elements_to_replace[0]`: the first author element if any
author element exists, else the first Grinnell element if any, else the
first old-link element. -/
def chosenPred (rs : List String) : String → Bool :=
  if rs.any isAuthorB then isAuthorB
  else if rs.any isGrinnellB then isGrinnellB
  else isOldLinkB

/-- The replace branch of src/app.py lines 1574-1588: the first element of
the chosen class gets text `new_value` in place, every other legacy element
is removed, all other elements stay. -/
def replaceFirst (p : String → Bool) : List String → List String
  | [] => []
  | t :: rest =>
    if p t then new_value :: rest.filter (fun u => !isLegacy u)
    else if isLegacy t then replaceFirst p rest
    else t :: replaceFirst p rest

inductive RightsOutcome where
  | removed_duplicates : RightsOutcome
  | no_change : RightsOutcome
  | added : RightsOutcome
  | replaced : RightsOutcome
  | error : RightsOutcome
deriving DecidableEq, Repr

/-- Result of one `replace_author_copyright_rights` call: the returned
success flag and outcome tag, the `dc:rights` texts of the record as left
on the remote store, and whether the write-back PUT was issued. -/
structure RightsResult where
  ok : Bool
  outcome : RightsOutcome
  rights : List String
  putIssued : Bool
deriving DecidableEq, Repr

/-- `replace_author_copyright_rights` (src/app.py lines 1415-1649) on the
record's list of `dc:rights` texts.  `hasParent` models whether a parent
element for a new `dc:rights` can be found (lines 1531-1569); `putOk`
models the HTTP status of the write-back PUT (lines 1615-1628), whose
failure leaves the remote record unchanged and returns outcome `error`.
The no-change branches (lines 1519-1521 and 1570-1572) return success
without issuing the PUT. -/
def replace_author_copyright_rights (rights : List String) (hasParent : Bool)
    (putOk : Bool) : RightsResult :=
  let urlExists := rights.any (fun t => t == new_value)
  let legacy := legacyOf rights
  if urlExists then
    if legacy.isEmpty then ⟨true, .no_change, rights, false⟩
    else if putOk then
      ⟨true, .removed_duplicates, rights.filter (fun t => !isLegacy t), true⟩
    else ⟨false, .error, rights, true⟩
  else if legacy.isEmpty then
    if rights.isEmpty then
      if hasParent then
        if putOk then ⟨true, .added, [new_value], true⟩
        else ⟨false, .error, rights, true⟩
      else ⟨false, .error, rights, false⟩
    else ⟨true, .no_change, rights, false⟩
  else
    if putOk then ⟨true, .replaced, replaceFirst (chosenPred rights) rights, true⟩
    else ⟨false, .error, rights, true⟩

theorem isLegacy_new_value : isLegacy new_value = false := by decide

theorem mem_replaceFirst (p : String → Bool) (rs : List String) (t : String)
    (ht : t ∈ replaceFirst p rs) :
    t = new_value ∨ (t ∈ rs ∧ isLegacy t = false) := by
  induction rs with
  | nil => simp [replaceFirst] at ht
  | cons m rest ih =>
      simp only [replaceFirst] at ht
      split at ht
      · rcases List.mem_cons.mp ht with h | h
        · exact Or.inl h
        · right
          have hf := List.mem_filter.mp h
          refine ⟨List.mem_cons_of_mem _ hf.1, ?_⟩
          simpa using hf.2
      · split at ht
        · rcases ih ht with h | h
          · exact Or.inl h
          · exact Or.inr ⟨List.mem_cons_of_mem _ h.1, h.2⟩
        · rcases List.mem_cons.mp ht with h | h
          · subst h
            rename_i hnotp hnotleg
            right
            refine ⟨List.mem_cons_self _ _, ?_⟩
            simpa using hnotleg
          · rcases ih h with h2 | h2
            · exact Or.inl h2
            · exact Or.inr ⟨List.mem_cons_of_mem _ h2.1, h2.2⟩

theorem new_mem_replaceFirst (p : String → Bool) (rs : List String)
    (h : ∃ x ∈ rs, p x = true) : new_value ∈ replaceFirst p rs := by
  induction rs with
  | nil => simp at h
  | cons m rest ih =>
      simp only [replaceFirst]
      by_cases hp : p m = true
      · rw [if_pos hp]
        exact List.mem_cons_self _ _
      · rw [if_neg hp]
        have hrest : ∃ x ∈ rest, p x = true := by
          rcases h with ⟨x, hx, hpx⟩
          rcases List.mem_cons.mp hx with rfl | hx2
          · exact absurd hpx hp
          · exact ⟨x, hx2, hpx⟩
        split
        · exact ih hrest
        · exact List.mem_cons_of_mem _ (ih hrest)

theorem legacyOf_eq_nil_iff (rs : List String) :
    legacyOf rs = [] ↔ ∀ t ∈ rs, isLegacy t = false := by
  unfold legacyOf
  simp only [List.append_eq_nil, List.filter_eq_nil_iff]
  constructor
  · rintro ⟨⟨ha, hg⟩, ho⟩ t ht
    have h1 := ha t ht
    have h2 := hg t ht
    have h3 := ho t ht
    simp only [Bool.not_eq_true] at h1 h2 h3
    simp [isLegacy, h1, h2, h3]
  · intro h
    refine ⟨⟨?_, ?_⟩, ?_⟩ <;> intro t ht <;> have := h t ht <;>
      simp only [isLegacy, Bool.or_eq_false_iff] at this <;>
      simp [this.1, this.2]

theorem chosen_exists (rs : List String) (h : legacyOf rs ≠ []) :
    ∃ x ∈ rs, chosenPred rs x = true := by
  unfold chosenPred
  by_cases ha : rs.any isAuthorB = true
  · rw [if_pos ha]
    exact List.any_eq_true.mp ha
  · rw [if_neg ha]
    by_cases hg : rs.any isGrinnellB = true
    · rw [if_pos hg]
      exact List.any_eq_true.mp hg
    · rw [if_neg hg]
      have hA : rs.filter isAuthorB = [] := by
        rw [List.filter_eq_nil_iff]
        intro a hamem hab
        exact ha (List.any_eq_true.mpr ⟨a, hamem, hab⟩)
      have hG : rs.filter isGrinnellB = [] := by
        rw [List.filter_eq_nil_iff]
        intro a hamem hab
        exact hg (List.any_eq_true.mpr ⟨a, hamem, hab⟩)
      have hO : rs.filter isOldLinkB ≠ [] := by
        intro hO
        apply h
        unfold legacyOf
        rw [hA, hG, hO]
        rfl
      obtain ⟨x, hx⟩ := List.exists_mem_of_ne_nil _ hO
      have := List.mem_filter.mp hx
      exact ⟨x, this.1, this.2⟩

theorem apply_on_clean (s : List String) (hp put2 : Bool)
    (hmem : new_value ∈ s) (hleg : ∀ t ∈ s, isLegacy t = false) :
    replace_author_copyright_rights s hp put2 = ⟨true, .no_change, s, false⟩ := by
  have hurl : s.any (fun t => t == new_value) = true :=
    List.any_eq_true.mpr ⟨new_value, hmem, by simp⟩
  have hlegnil : (legacyOf s).isEmpty = true := by
    rw [List.isEmpty_iff]
    exact (legacyOf_eq_nil_iff s).mpr hleg
  simp only [replace_author_copyright_rights]
  rw [if_pos hurl, if_pos hlegnil]

/-- C5: idempotence of `replace_author_copyright_rights` (src/app.py lines
1480-1589).  Whenever a first application does not end in the `error`
outcome (fetch failure, failed write-back PUT, or no parent element for an
append), a second application to the resulting record reports `no_change`
(returned without issuing the write-back PUT) and leaves the record's
`dc:rights` fields untouched — so the operation never reports a changed
outcome (`replaced`, `added` or `removed_duplicates`) twice in
succession, and the record transformation is idempotent. -/
theorem replace_rights_idempotent (rights : List String)
    (hasParent put1 put2 : Bool)
    (h : (replace_author_copyright_rights rights hasParent put1).outcome
      ≠ .error) :
    replace_author_copyright_rights
        (replace_author_copyright_rights rights hasParent put1).rights
        hasParent put2
      = ⟨true, .no_change,
         (replace_author_copyright_rights rights hasParent put1).rights,
         false⟩ := by
  by_cases hurl : rights.any (fun t => t == new_value) = true
  · by_cases hleg : (legacyOf rights).isEmpty = true
    · have h1 : replace_author_copyright_rights rights hasParent put1
          = ⟨true, .no_change, rights, false⟩ := by
        simp only [replace_author_copyright_rights]
        rw [if_pos hurl, if_pos hleg]
      rw [h1]
      simp only [replace_author_copyright_rights]
      rw [if_pos hurl, if_pos hleg]
    · by_cases hput : put1 = true
      · have h1 : replace_author_copyright_rights rights hasParent put1
            = ⟨true, .removed_duplicates,
               rights.filter (fun t => !isLegacy t), true⟩ := by
          simp only [replace_author_copyright_rights]
          rw [if_pos hurl, if_neg hleg, if_pos hput]
        rw [h1]
        apply apply_on_clean
        · obtain ⟨x, hx, hbeq⟩ := List.any_eq_true.mp hurl
          have hxeq : x = new_value := by simpa using hbeq
          subst hxeq
          exact List.mem_filter.mpr ⟨hx, by simp [isLegacy_new_value]⟩
        · intro t ht
          have := (List.mem_filter.mp ht).2
          simpa using this
      · exfalso
        apply h
        simp only [replace_author_copyright_rights]
        rw [if_pos hurl, if_neg hleg, if_neg hput]
  · by_cases hleg : (legacyOf rights).isEmpty = true
    · by_cases hrnil : rights.isEmpty = true
      · by_cases hpar : hasParent = true
        · by_cases hput : put1 = true
          · have h1 : replace_author_copyright_rights rights hasParent put1
                = ⟨true, .added, [new_value], true⟩ := by
              simp only [replace_author_copyright_rights]
              rw [if_neg hurl, if_pos hleg, if_pos hrnil, if_pos hpar,
                if_pos hput]
            rw [h1]
            apply apply_on_clean
            · exact List.mem_cons_self _ _
            · intro t ht
              rcases List.mem_cons.mp ht with rfl | ht2
              · exact isLegacy_new_value
              · simp at ht2
          · exfalso
            apply h
            simp only [replace_author_copyright_rights]
            rw [if_neg hurl, if_pos hleg, if_pos hrnil, if_pos hpar,
              if_neg hput]
        · exfalso
          apply h
          simp only [replace_author_copyright_rights]
          rw [if_neg hurl, if_pos hleg, if_pos hrnil, if_neg hpar]
      · have h1 : replace_author_copyright_rights rights hasParent put1
            = ⟨true, .no_change, rights, false⟩ := by
          simp only [replace_author_copyright_rights]
          rw [if_neg hurl, if_pos hleg, if_neg hrnil]
        rw [h1]
        simp only [replace_author_copyright_rights]
        rw [if_neg hurl, if_pos hleg, if_neg hrnil]
    · by_cases hput : put1 = true
      · have h1 : replace_author_copyright_rights rights hasParent put1
            = ⟨true, .replaced,
               replaceFirst (chosenPred rights) rights, true⟩ := by
          simp only [replace_author_copyright_rights]
          rw [if_neg hurl, if_neg hleg, if_pos hput]
        rw [h1]
        have hlegne : legacyOf rights ≠ [] := by
          intro hnil
          exact hleg (List.isEmpty_iff.mpr hnil)
        apply apply_on_clean
        · exact new_mem_replaceFirst _ _ (chosen_exists rights hlegne)
        · intro t ht
          rcases mem_replaceFirst _ _ _ ht with rfl | h2
          · exact isLegacy_new_value
          · exact h2.2
      · exfalso
        apply h
        simp only [replace_author_copyright_rights]
        rw [if_neg hurl, if_neg hleg, if_neg hput]

/-- Witness for C5: a record whose single `dc:rights` field is an
author-copyright statement; the first application replaces it, the second
reports no-change. -/
theorem replace_rights_idempotent_witness :
    ((replace_author_copyright_rights [pattern_start] true true).outcome
        ≠ RightsOutcome.error)
    ∧ replace_author_copyright_rights
        (replace_author_copyright_rights [pattern_start] true true).rights
        true true
      = ⟨true, .no_change,
         (replace_author_copyright_rights [pattern_start] true true).rights,
         false⟩ :=
  ⟨by decide,
   replace_rights_idempotent [pattern_start] true true true (by decide)⟩

/-- The prefix matched by `clear_dc_relation_collections`
(src/app.py line 678). -/
def collection_pattern : String := "alma:01GCL_INST/bibs/collections/"

/-- Result of one `clear_dc_relation_collections` call: the returned
success flag, the `dc:relation` texts left on the remote record, and
whether the write-back PUT was issued. -/
structure ClearResult where
  ok : Bool
  relations : List String
  putIssued : Bool
deriving DecidableEq, Repr

/-- `clear_dc_relation_collections` (src/app.py lines 618-744) on the
record's list of `dc:relation` texts: every text starting with the
collection pattern is removed; when none matches (`removed_count == 0`,
lines 693-695) the function returns success immediately, before the PUT of
lines 721-725 is ever built or sent; `putOk` models the write-back PUT
status, whose failure leaves the remote record unchanged. -/
def clear_dc_relation_collections (relations : List String) (putOk : Bool) :
    ClearResult :=
  let removed_count :=
    relations.countP (fun t => strStartsWith t collection_pattern)
  if removed_count = 0 then ⟨true, relations, false⟩
  else if putOk then
    ⟨true, relations.filter (fun t => !strStartsWith t collection_pattern), true⟩
  else ⟨false, relations, true⟩

/-- C10: both mutation operations return success without issuing the
write-back PUT whenever they classify the record as needing no change, so
on every no-op outcome the remote record is left entirely unchanged:
`clear_dc_relation_collections` when zero `dc:relation` texts match the
collection pattern (src/app.py lines 693-695), and
`replace_author_copyright_rights` on every `no_change` outcome — target
URL already present with no legacy fields remaining (lines 1519-1521), or
no matching `dc:rights` fields at all (lines 1570-1572). -/
theorem no_change_no_put :
    (∀ (relations : List String) (putOk : Bool),
        relations.countP (fun t => strStartsWith t collection_pattern) = 0 →
        clear_dc_relation_collections relations putOk
          = ⟨true, relations, false⟩)
    ∧ (∀ (rights : List String) (hasParent putOk : Bool),
        (replace_author_copyright_rights rights hasParent putOk).outcome
            = .no_change →
        (replace_author_copyright_rights rights hasParent putOk).ok = true
        ∧ (replace_author_copyright_rights rights hasParent putOk).rights
            = rights
        ∧ (replace_author_copyright_rights rights hasParent putOk).putIssued
            = false) := by
  constructor
  · intro relations putOk hzero
    simp only [clear_dc_relation_collections]
    rw [if_pos hzero]
  · intro rights hasParent putOk h
    simp only [replace_author_copyright_rights] at h ⊢
    split at h
    · split at h
      · simp_all
      · split at h <;> simp_all
    · split at h
      · split at h
        · split at h
          · split at h <;> simp_all
          · simp_all
        · simp_all
      · split at h <;> simp_all

/-- Witness for C10: a record with one unrelated `dc:relation` text and a
record with one unrelated `dc:rights` text. -/
theorem no_change_no_put_witness :
    ((["unrelated relation"] : List String).countP
        (fun t => strStartsWith t collection_pattern) = 0
      ∧ clear_dc_relation_collections ["unrelated relation"] true
          = ⟨true, ["unrelated relation"], false⟩)
    ∧ ((replace_author_copyright_rights ["All rights reserved."] true
          true).outcome = .no_change
      ∧ (replace_author_copyright_rights ["All rights reserved."] true
            true).ok = true
      ∧ (replace_author_copyright_rights ["All rights reserved."] true
            true).rights = ["All rights reserved."]
      ∧ (replace_author_copyright_rights ["All rights reserved."] true
            true).putIssued = false) :=
  ⟨⟨by decide,
    no_change_no_put.1 ["unrelated relation"] true (by decide)⟩,
   ⟨by decide,
    no_change_no_put.2 ["All rights reserved."] true true (by decide)⟩⟩

theorem mem_mapKeys_dictInsert (m : List (String × BibRecord)) (k : String)
    (v : BibRecord) (a : String) :
    a ∈ mapKeys (dictInsert m k v) ↔ a ∈ mapKeys m ∨ a = k := by
  unfold dictInsert mapKeys
  by_cases hany : m.any (fun p => p.1 == k) = true
  · rw [if_pos hany]
    have hkeys : (m.map (fun p => if p.1 == k then (k, v) else p)).map Prod.fst
        = m.map Prod.fst := by
      rw [List.map_map]
      apply List.map_congr_left
      intro p hp
      by_cases hpk : (p.1 == k) = true
      · simp only [Function.comp_apply, if_pos hpk]
        exact (beq_iff_eq.mp hpk).symm
      · simp only [Function.comp_apply, if_neg hpk]
    rw [hkeys]
    constructor
    · exact Or.inl
    · rintro (h | rfl)
      · exact h
      · obtain ⟨p, hp, hpk⟩ := List.any_eq_true.mp hany
        have hpa : p.1 = a := beq_iff_eq.mp hpk
        exact hpa ▸ List.mem_map_of_mem Prod.fst hp
  · rw [if_neg hany]
    simp

theorem mem_keys_buildRecords_aux (bibs : List BibEntry)
    (acc : List (String × BibRecord)) (a : String) :
    a ∈ mapKeys (bibs.foldl (fun m bib =>
        if bib.mms_id = "" then m
        else dictInsert m bib.mms_id (mkBibRecord bib)) acc)
      ↔ a ∈ mapKeys acc ∨ (a ≠ "" ∧ a ∈ bibs.map BibEntry.mms_id) := by
  induction bibs generalizing acc with
  | nil => simp
  | cons b t ih =>
      simp only [List.foldl_cons, List.map_cons, List.mem_cons]
      by_cases hb : b.mms_id = ""
      · rw [if_pos hb]
        rw [ih]
        constructor
        · rintro (h | h)
          · exact Or.inl h
          · exact Or.inr ⟨h.1, Or.inr h.2⟩
        · rintro (h | ⟨ha, rfl | h3⟩)
          · exact Or.inl h
          · exact absurd hb ha
          · exact Or.inr ⟨ha, h3⟩
      · rw [if_neg hb]
        rw [ih, mem_mapKeys_dictInsert]
        constructor
        · rintro ((h | rfl) | h)
          · exact Or.inl h
          · exact Or.inr ⟨hb, Or.inl rfl⟩
          · exact Or.inr ⟨h.1, Or.inr h.2⟩
        · rintro (h | ⟨ha, rfl | h3⟩)
          · exact Or.inl (Or.inl h)
          · exact Or.inl (Or.inr rfl)
          · exact Or.inr ⟨ha, h3⟩

theorem mem_keys_buildRecords (bibs : List BibEntry) (a : String) :
    a ∈ mapKeys (buildRecords bibs)
      ↔ a ≠ "" ∧ a ∈ bibs.map BibEntry.mms_id := by
  unfold buildRecords
  rw [mem_keys_buildRecords_aux]
  simp [mapKeys]

/-- The response oracle used to refute the requested-ids-only claim: the
store answers HTTP 200 with one record whose `mms_id` is `"B"`, whatever
was requested. -/
def netUnrequested : Nat → List String → BatchResponse :=
  fun _ _ => ⟨true, 200, [⟨"B", "", "", []⟩]⟩

/-- C6 counterexample: `fetch_bib_records_batch` does NOT restrict the
returned map to requested identifiers.  Requesting only `"A"` against a
response carrying a bib with `mms_id = "B"` yields a map whose key list is
exactly `["B"]` — a key that was never requested — contradicting the claim
that a record present in the response but not matching a requested id is
ignored. -/
theorem batch_fetch_unrequested_key_counterexample :
    mapKeys (fetch_bib_records_batch true ["A"] netUnrequested).1 = ["B"]
    ∧ "B" ∉ (["A"] : List String) := by
  decide

/-- C6 amended: for a non-empty request of at most 100 identifiers answered
with HTTP 200, the returned map's keys are exactly the non-empty `mms_id`
values of the response's bibs — with no filtering against the requested
list — and a requested identifier absent from the response is simply a
missing key, which the caller's per-item step counts as one more failure
(`failed_count + 1`) rather than crashing. -/
theorem batch_fetch_key_semantics (mms_ids : List String)
    (net : Nat → List String → BatchResponse)
    (hne : mms_ids ≠ []) (hlen : mms_ids.length ≤ 100)
    (htok : (net 0 mms_ids).transportOk = true)
    (hst : (net 0 mms_ids).status = 200) :
    (∀ k : String,
        k ∈ mapKeys (fetch_bib_records_batch true mms_ids net).1
          ↔ (k ≠ "" ∧ k ∈ (net 0 mms_ids).bibs.map BibEntry.mms_id))
    ∧ (∀ (recs : List (String × BibRecord)) (rowOk : String → Bool)
        (cnt : ExportCounters) (id : String),
        recs.lookup id = none →
        exportItemStep recs rowOk cnt id
          = ⟨cnt.success_count, cnt.failed_count + 1⟩) := by
  constructor
  · intro k
    have hfetch : (fetch_bib_records_batch true mms_ids net).1
        = buildRecords (net 0 mms_ids).bibs := by
      simp only [fetch_bib_records_batch]
      rw [if_neg (Nat.not_lt.mpr hlen)]
      simp [List.isEmpty_iff, hne, htok, hst]
    rw [hfetch]
    exact mem_keys_buildRecords _ k
  · intro recs rowOk cnt id hlookup
    simp [exportItemStep, hlookup]

/-- Witness for the amended C6: one requested identifier, returned by the
store; and a lookup miss counted as a failure. -/
theorem batch_fetch_key_semantics_witness :
    ((["A"] : List String) ≠ [] ∧ (["A"] : List String).length ≤ 100
      ∧ ((fun (_ : Nat) (_ : List String) =>
            (⟨true, 200, [⟨"A", "", "", []⟩]⟩ : BatchResponse)) 0
          ["A"]).transportOk = true
      ∧ ((fun (_ : Nat) (_ : List String) =>
            (⟨true, 200, [⟨"A", "", "", []⟩]⟩ : BatchResponse)) 0
          ["A"]).status = 200)
    ∧ ("A" ∈ mapKeys (fetch_bib_records_batch true ["A"]
          (fun _ _ => ⟨true, 200, [⟨"A", "", "", []⟩]⟩)).1
        ↔ ("A" ≠ ""
          ∧ "A" ∈ (((fun (_ : Nat) (_ : List String) =>
              (⟨true, 200, [⟨"A", "", "", []⟩]⟩ : BatchResponse)) 0
            ["A"]).bibs.map BibEntry.mms_id))) :=
  ⟨⟨by decide, by decide, by decide, by decide⟩,
   (batch_fetch_key_semantics ["A"]
      (fun _ _ => ⟨true, 200, [⟨"A", "", "", []⟩]⟩)
      (by decide) (by decide) (by decide) (by decide)).1 "A"⟩

/-- C9: for any input list of more than 100 identifiers,
`fetch_bib_records_batch` silently truncates the request to the first 100
(src/app.py lines 368-371): the call behaves exactly like a call on
`ids.take 100` — same map, same single attempt, no error value of any kind
signalled for the dropped identifiers — and, for a store that only returns
requested records (the spec's `RecordStore` contract) and a duplicate-free
list, no identifier at position 101 or later ever gets a key in the
returned map. -/
theorem batch_fetch_truncation (ids : List String)
    (net : Nat → List String → BatchResponse) (hlen : 100 < ids.length) :
    fetch_bib_records_batch true ids net
      = fetch_bib_records_batch true (ids.take 100) net
    ∧ ((∀ (req : List String) (b : BibEntry),
          b ∈ (net 0 req).bibs → b.mms_id ∈ req) →
        ids.Nodup →
        ∀ x ∈ ids.drop 100,
          x ∉ mapKeys (fetch_bib_records_batch true ids net).1) := by
  have hne : ids ≠ [] := by
    intro h
    subst h
    simp at hlen
  have htne : ids.take 100 ≠ [] := by
    intro h
    have h2 : (ids.take 100).length = 0 := by
      rw [h]
      rfl
    rw [List.length_take] at h2
    omega
  have htlen : ¬ ((ids.take 100).length > 100) := by
    simp [List.length_take]
  have hred : fetch_bib_records_batch true ids net
      = (if (!(net 0 (ids.take 100)).transportOk) = true then ([], 1)
         else if (net 0 (ids.take 100)).status ≠ 200 then ([], 1)
         else (buildRecords (net 0 (ids.take 100)).bibs, 1)) := by
    simp only [fetch_bib_records_batch]
    rw [if_pos hlen]
    simp [List.isEmpty_iff, hne]
  have hred2 : fetch_bib_records_batch true (ids.take 100) net
      = (if (!(net 0 (ids.take 100)).transportOk) = true then ([], 1)
         else if (net 0 (ids.take 100)).status ≠ 200 then ([], 1)
         else (buildRecords (net 0 (ids.take 100)).bibs, 1)) := by
    simp only [fetch_bib_records_batch]
    rw [if_neg htlen]
    simp [List.isEmpty_iff, htne]
  constructor
  · rw [hred, hred2]
  · intro hsub hnodup x hx hmem
    have hdisj : x ∉ ids.take 100 := by
      have h2 : (ids.take 100 ++ ids.drop 100).Nodup := by
        rw [List.take_append_drop]
        exact hnodup
      have h3 := (List.nodup_append.mp h2).2.2
      exact fun hxin => h3 hxin hx
    apply hdisj
    rw [hred] at hmem
    split at hmem
    · simp [mapKeys] at hmem
    · split at hmem
      · simp [mapKeys] at hmem
      · simp only [] at hmem
        have := (mem_keys_buildRecords _ x).mp hmem
        obtain ⟨b, hb, hbx⟩ := List.mem_map.mp this.2
        have := hsub (ids.take 100) b hb
        rwa [hbx] at this

/-- The 101 pairwise-distinct identifiers used to witness C9. -/
def idsW9 : List String :=
  (List.range 101).map (fun n => String.mk (List.replicate n 'a'))

/-- A store that returns exactly the requested identifiers, used to witness
C9. -/
def netW9 : Nat → List String → BatchResponse :=
  fun _ req => ⟨true, 200, req.map (fun id => ⟨id, "", "", []⟩)⟩

theorem idsW9_nodup : idsW9.Nodup := by
  unfold idsW9
  apply List.Nodup.map
  · intro a b hab
    have := congrArg (fun s => s.data.length) hab
    simpa using this
  · exact List.nodup_range 101

/-- Witness for C9 at a concrete 101-identifier list against a store that
returns exactly the requested records. -/
theorem batch_fetch_truncation_witness :
    (100 < idsW9.length ∧ idsW9.Nodup)
    ∧ (∀ x ∈ idsW9.drop 100,
        x ∉ mapKeys (fetch_bib_records_batch true idsW9 netW9).1) :=
  ⟨⟨by simp [idsW9], idsW9_nodup⟩,
   (batch_fetch_truncation idsW9 netW9 (by simp [idsW9])).2
     (by
       intro req b hb
       simp only [netW9, List.mem_map] at hb
       obtain ⟨id, hid, rfl⟩ := hb
       simpa using hid)
     idsW9_nodup⟩

/-- The inner member loop of `fetch_set_members` (src/app.py lines
261-267): members of one page are appended one at a time; once
`max_members > 0` and the accumulated count reaches it, appending stops
mid-page. -/
def appendUpTo (m : Nat) (acc page : List String) : List String :=
  match page with
  | [] => acc
  | x :: rest =>
    if 0 < m ∧ m ≤ (acc ++ [x]).length then acc ++ [x]
    else appendUpTo m (acc ++ [x]) rest

/-- The outer pagination loop of `fetch_set_members` (src/app.py lines
235-283): pages are consumed in order; after each page the loop stops if
`max_members > 0` and the limit is reached, otherwise it continues to the
next page until exhaustion. -/
def collectPages (m : Nat) : List (List String) → List String → List String
  | [], acc => acc
  | p :: rest, acc =>
    if 0 < m ∧ m ≤ (appendUpTo m acc p).length then appendUpTo m acc p
    else collectPages m rest (appendUpTo m acc p)

/-- `fetch_set_members` (src/app.py lines 211-295) against a store whose
set membership is `allM`, paginated in pages of 100: with
`maxMembers = 0` every page is consumed (no early stop); with
`maxMembers > 0` the loop stops as soon as that many members are
accumulated. -/
def fetch_set_members (allM : List String) (maxMembers : Nat) : List String :=
  collectPages maxMembers (chunks100 allM) []

/-- The Alma-set path of `on_load_set_click` (src/app.py lines 4655-4702):
a positive limit is pushed down to the API fetch (`api_limit = limit`), a
zero or negative limit fetches everything (`api_limit = 0`), and a
negative limit is applied afterwards as the Python slice
`members[limit:]` — the last `|limit|` members — when `|limit|` does not
exceed the member count. -/
def on_load_set (allM : List String) (limit : Int) : List String :=
  let apiLimit : Nat := if limit > 0 then limit.toNat else 0
  let members := fetch_set_members allM apiLimit
  if limit < 0 ∧ limit.natAbs ≤ members.length then
    members.drop (members.length - limit.natAbs)
  else members

/-- The CSV path of `on_load_set_click` (src/app.py lines 4628-4641):
`members[:limit]` when `0 < limit < len(members)`, `members[limit:]` when
`limit < 0` and `|limit| <= len(members)`, everything otherwise. -/
def applyLimitCsv (members : List String) (limit : Int) : List String :=
  if limit > 0 ∧ limit < (members.length : Int) then members.take limit.toNat
  else if limit < 0 ∧ limit.natAbs ≤ members.length then
    members.drop (members.length - limit.natAbs)
  else members

theorem appendUpTo_zero (p acc : List String) :
    appendUpTo 0 acc p = acc ++ p := by
  induction p generalizing acc with
  | nil => simp [appendUpTo]
  | cons x rest ih =>
      simp only [appendUpTo]
      rw [if_neg (by simp)]
      rw [ih]
      simp

theorem collectPages_zero (pages : List (List String)) (acc : List String) :
    collectPages 0 pages acc = acc ++ pages.flatten := by
  induction pages generalizing acc with
  | nil => simp [collectPages]
  | cons p rest ih =>
      simp only [collectPages]
      rw [if_neg (by simp)]
      rw [appendUpTo_zero, ih]
      simp

theorem appendUpTo_pos (m : Nat) (hm : 0 < m) (p : List String) :
    ∀ acc : List String, acc.length < m →
      appendUpTo m acc p = (acc ++ p).take m := by
  induction p with
  | nil =>
      intro acc hacc
      simp only [appendUpTo, List.append_nil]
      rw [List.take_of_length_le (Nat.le_of_lt hacc)]
  | cons x rest ih =>
      intro acc hacc
      simp only [appendUpTo]
      by_cases hfull : m ≤ (acc ++ [x]).length
      · rw [if_pos ⟨hm, hfull⟩]
        have hm_eq : m = acc.length + 1 := by
          simp at hfull
          omega
        rw [show acc ++ x :: rest = (acc ++ [x]) ++ rest by simp]
        rw [List.take_append_eq_append_take]
        rw [List.take_of_length_le (by simp; omega)]
        rw [show m - (acc ++ [x]).length = 0 by simp; omega]
        simp
      · rw [if_neg (by intro hand; exact hfull hand.2)]
        rw [ih (acc ++ [x]) (by simp at hfull ⊢; omega)]
        simp

theorem collectPages_pos (m : Nat) (hm : 0 < m) (pages : List (List String)) :
    ∀ acc : List String, acc.length < m →
      collectPages m pages acc = (acc ++ pages.flatten).take m := by
  induction pages with
  | nil =>
      intro acc hacc
      simp only [collectPages, List.flatten_nil, List.append_nil]
      rw [List.take_of_length_le (Nat.le_of_lt hacc)]
  | cons p rest ih =>
      intro acc hacc
      simp only [collectPages]
      rw [appendUpTo_pos m hm p acc hacc]
      by_cases hfull : m ≤ ((acc ++ p).take m).length
      · rw [if_pos ⟨hm, hfull⟩]
        have hlen : m ≤ acc.length + p.length := by
          simp [List.length_take] at hfull
          omega
        have hres : (acc ++ (p :: rest).flatten).take m = (acc ++ p).take m := by
          rw [show acc ++ (p :: rest).flatten = (acc ++ p) ++ rest.flatten by simp]
          rw [List.take_append_eq_append_take]
          rw [show m - (acc ++ p).length = 0 by simp [List.length_append]; omega]
          simp
        rw [hres]
      · rw [if_neg (by intro hand; exact hfull hand.2)]
        have hshort : (acc ++ p).length < m := by
          simp only [List.length_append]
          simp [List.length_take] at hfull
          omega
        rw [List.take_of_length_le (Nat.le_of_lt hshort)]
        rw [ih (acc ++ p) hshort]
        simp

theorem fetch_set_members_zero (allM : List String) :
    fetch_set_members allM 0 = allM := by
  unfold fetch_set_members
  rw [collectPages_zero, chunks100_join]
  simp

theorem fetch_set_members_pos (allM : List String) (m : Nat) (hm : 0 < m) :
    fetch_set_members allM m = allM.take m := by
  unfold fetch_set_members
  rw [collectPages_pos m hm (chunks100 allM) [] (by simpa using hm)]
  rw [chunks100_join]
  simp

/-- C7: for a loaded collection of 250 identifiers, both load paths of
`on_load_set_click` truncate as claimed: limit 50 keeps exactly the first
50 in order, limit -50 keeps exactly the last 50 in order, and limit 0
keeps all 250.  On the paginated set path a negative limit sets the API
limit to 0, so pagination runs to exhaustion (`fetch_set_members ids 0 =
ids` — no early stop) before the final slice is taken. -/
theorem limit_truncation (ids : List String) (hlen : ids.length = 250) :
    applyLimitCsv ids 50 = ids.take 50
    ∧ applyLimitCsv ids (-50) = ids.drop 200
    ∧ applyLimitCsv ids 0 = ids
    ∧ fetch_set_members ids 0 = ids
    ∧ on_load_set ids 50 = ids.take 50
    ∧ on_load_set ids (-50) = ids.drop 200
    ∧ on_load_set ids 0 = ids := by
  refine ⟨?_, ?_, ?_, fetch_set_members_zero ids, ?_, ?_, ?_⟩
  · simp only [applyLimitCsv]
    rw [if_pos ⟨by norm_num, by rw [hlen]; norm_num⟩]
    rfl
  · simp only [applyLimitCsv]
    rw [if_neg (by norm_num)]
    rw [if_pos ⟨by norm_num, by rw [hlen]; norm_num⟩]
    rw [hlen]
    rfl
  · simp only [applyLimitCsv]
    rw [if_neg (by norm_num), if_neg (by norm_num)]
  · simp only [on_load_set]
    rw [show (if (50 : Int) > 0 then (50 : Int).toNat else 0) = 50 from by decide]
    rw [fetch_set_members_pos ids 50 (by norm_num)]
    rw [if_neg (by intro hand; exact absurd hand.1 (by norm_num))]
  · simp only [on_load_set]
    rw [show (if (-50 : Int) > 0 then (-50 : Int).toNat else 0) = 0 from by decide]
    rw [fetch_set_members_zero ids]
    rw [if_pos ⟨by norm_num, by rw [hlen]; decide⟩]
    rw [hlen]
    rw [show 250 - ((-50 : Int)).natAbs = 200 from by decide]
  · simp only [on_load_set]
    rw [show (if (0 : Int) > 0 then (0 : Int).toNat else 0) = 0 from by decide]
    rw [fetch_set_members_zero ids]
    rw [if_neg (by intro hand; exact absurd hand.1 (by norm_num))]

/-- The 250-identifier collection used to witness C7. -/
def idsW7 : List String :=
  (List.range 250).map (fun n => String.mk (List.replicate n 'b'))

/-- Witness for C7 at a concrete 250-identifier collection. -/
theorem limit_truncation_witness :
    idsW7.length = 250
    ∧ (applyLimitCsv idsW7 50 = idsW7.take 50
      ∧ applyLimitCsv idsW7 (-50) = idsW7.drop 200
      ∧ applyLimitCsv idsW7 0 = idsW7
      ∧ fetch_set_members idsW7 0 = idsW7
      ∧ on_load_set idsW7 50 = idsW7.take 50
      ∧ on_load_set idsW7 (-50) = idsW7.drop 200
      ∧ on_load_set idsW7 0 = idsW7) :=
  ⟨by simp [idsW7], limit_truncation idsW7 (by simp [idsW7])⟩

/-- Python's `\w` on the ASCII inputs of this repository: letters, digits,
underscore — used for the `\b` word boundaries of the year regex. -/
def isWordChar (c : Char) : Bool :=
  c.isAlphanum || c == '_'

/-- One anchored match attempt of the year pattern
`\b(1[0-9]{3}|20[0-9]{2})\b` (src/app.py lines 2731 and 2738) at the head
of the character list: four characters forming `1[0-9]{3}` or `20[0-9]{2}`
followed by a word boundary; returns the year value on success. -/
def tryYear (cs : List Char) : Option Nat :=
  match cs with
  | a :: b :: c :: d :: rest =>
    let ok1 := a == '1' && b.isDigit && c.isDigit && d.isDigit
    let ok2 := a == '2' && b == '0' && c.isDigit && d.isDigit
    let boundAfter :=
      match rest with
      | [] => true
      | e :: _ => !isWordChar e
    if (ok1 || ok2) && boundAfter then
      some ((a.toNat - 48) * 1000 + (b.toNat - 48) * 100
        + (c.toNat - 48) * 10 + (d.toNat - 48))
    else none
  | _ => none

/-- `re.search` of the year pattern: scan left to right, trying an
anchored match at every position whose preceding character (`prev`) is a
word boundary — the match always starts with a digit, so the boundary
before it holds exactly when the previous character is absent or
non-word. -/
def searchYear (prev : Option Char) : List Char → Option Nat
  | [] => none
  | c :: rest =>
    let boundBefore :=
      match prev with
      | none => true
      | some p => !isWordChar p
    match (if boundBefore then tryYear (c :: rest) else none) with
    | some y => some y
    | none => searchYear (some c) rest

/-- The first 4-digit year (1000-1999 or 2000-2099, on word boundaries)
found in a date string, as `re.search(r'\b(1[0-9]{3}|20[0-9]{2})\b', s)`
extracts it. -/
def extract_year (s : String) : Option Nat :=
  searchYear none s.toList

/-- The year/decade derivation of `analyze_sound_records_by_decade`
(src/app.py lines 2723-2752): year, derived decade column, and whether the
no-date counter is incremented. -/
structure DecadeResult where
  year : Option Nat
  decade : String
  noDateInc : Bool
deriving DecidableEq, Repr

/-- The derivation itself: search `dc:date` first (only if non-empty, per
Python truthiness), fall back to `dcterms:created`; on a found year bucket
it by integer floor-division into `f"{(year // 10) * 10}s"`; otherwise the
decade stays empty and the no-date counter is incremented. -/
def derive_decade (dc_date dcterms_created : String) : DecadeResult :=
  let y1 := if dc_date ≠ "" then extract_year dc_date else none
  let y :=
    match y1 with
    | some v => some v
    | none => if dcterms_created ≠ "" then extract_year dcterms_created else none
  match y with
  | some v => ⟨some v, toString ((v / 10) * 10) ++ "s", false⟩
  | none => ⟨none, "", true⟩

/-- C8: the derived year/decade computation on the spec's concrete cases:
`"1967-03-01"` yields year 1967 and decade `"1960s"`; `"Grinnell, 1932"`
yields year 1932 and decade `"1930s"`; a date string with no 4-digit year
(`"n.d."`) yields no year, an empty decade, and increments the no-date
counter; and when `dc:date` has no 4-digit year the computation falls back
to `dcterms:created` (`"circa 1950"` gives 1950, `"1950s"`). -/
theorem decade_extraction :
    derive_decade "1967-03-01" "" = ⟨some 1967, "1960s", false⟩
    ∧ derive_decade "Grinnell, 1932" "" = ⟨some 1932, "1930s", false⟩
    ∧ derive_decade "n.d." "" = ⟨none, "", true⟩
    ∧ derive_decade "n.d." "circa 1950" = ⟨some 1950, "1950s", false⟩ := by
  decide
